import Mathlib

/-!
A shallow embedding of `src/server.py` (class `Server`, an adventure game
socket server).  Python strings are modelled as `List Char`; the client
socket is modelled as the list of byte chunks successive `recv` calls
return; a raised exception (`KeyError` in `route`, `IndexError` in
`room_description`) is modelled as `Option.none`.
-/

namespace Adventure

/-- Python strings (and byte strings, which the program only ever decodes
as ASCII) are modelled as lists of characters. -/
abbrev Str := List Char

/-- The characters stripped by Python `str.strip()` (the ASCII whitespace
characters; the program only ever handles ASCII input). -/
def isPySpace (c : Char) : Bool :=
  c == ' ' || c == '\t' || c == '\n' || c == '\r' || c == '\x0b' || c == '\x0c'

/-- Python `s.strip()`: remove leading and trailing whitespace. -/
def pyStrip (s : Str) : Str :=
  ((s.dropWhile isPySpace).reverse.dropWhile isPySpace).reverse

/-- Python `s.split(' ')`: split on every single space character, keeping
empty pieces; always returns at least one piece. -/
def splitOnSpace : Str → List Str
  | [] => [[]]
  | c :: rest =>
    if c = ' ' then [] :: splitOnSpace rest
    else
      match splitOnSpace rest with
      | [] => [[c]]
      | p :: ps => (c :: p) :: ps

/-- The mutable session state of `Server.__init__` (the two socket fields
are represented by the chunk-stream model of `get_input` and the message
list produced by `serve`; `port` plays no role in any behaviour). -/
structure Server where
  input_buffer : Str
  output_buffer : Str
  done : Bool
  room : Nat
deriving DecidableEq, Repr

/-- State after `Server.__init__`: empty buffers, not done, room 0. -/
def initServer : Server :=
  { input_buffer := [], output_buffer := [], done := false, room := 0 }

/-- The constant `Server.game_name`. -/
def game_name : Str := "Land of the Lost".toList

/-- The room description list of `Server.room_description`. -/
def descriptions : List Str :=
  [ "You are in the white room with black curtains, a sword glistens in the corner...".toList
  , "You are in the jungle room with many strange animal busts in here, they almost seem to be real?".toList
  , "You are in the rancor pit, watch out!".toList
  , "You are in the dungeon, a dimly lit torch can be seen down the hall...".toList ]

/-- Model of `Server.room_description`: list indexing; `none` models the
`IndexError` raised for an out-of-range index. -/
def room_description (room_number : Nat) : Option Str :=
  descriptions[room_number]?

/-- Model of `Server.greet`: sets the output buffer to
`f'Welcome to {self.game_name}! {self.room_description(self.room)}'`. -/
def greet (s : Server) : Option Server :=
  (room_description s.room).map fun d =>
    { s with output_buffer :=
        "Welcome to ".toList ++ game_name ++ "! ".toList ++ d }

/-- The read loop of `Server.get_input`: `received = b''`,
`while b'\n' not in received: received += recv(...)`.  Each element of
`chunks` is one chunk returned by `recv`; `none` models the read blocking
forever because the stream is exhausted. -/
def get_input_loop (received : Str) (chunks : List Str) :
    Option (Str × List Str) :=
  if '\n' ∈ received then some (received, chunks)
  else
    match chunks with
    | [] => none
    | c :: rest => get_input_loop (received ++ c) rest

/-- Model of `Server.get_input`: run the read loop, then
`self.input_buffer = received.decode().strip()`.  Returns the updated
state and the chunks not yet consumed. -/
def get_input (s : Server) (chunks : List Str) :
    Option (Server × List Str) :=
  (get_input_loop [] chunks).map fun p =>
    ({ s with input_buffer := pyStrip p.1 }, p.2)

/-- Model of `Server.move`: six sequential (non-`elif`) conditionals on
`self.room` and `argument`, then
`self.output_buffer = self.room_description(self.room)`. -/
def move (s : Server) (argument : Str) : Option Server :=
  let room := s.room
  let room := if room = 0 ∧ argument = "north".toList then 3 else room
  let room := if room = 0 ∧ argument = "east".toList then 2 else room
  let room := if room = 0 ∧ argument = "west".toList then 1 else room
  let room := if room = 1 ∧ argument = "east".toList then 0 else room
  let room := if room = 2 ∧ argument = "west".toList then 0 else room
  let room := if room = 3 ∧ argument = "south".toList then 0 else room
  (room_description room).map fun d =>
    { s with room := room, output_buffer := d }

/-- Model of `Server.say`: `self.output_buffer = f'You say, "{argument}"'`. -/
def say (s : Server) (argument : Str) : Server :=
  { s with output_buffer :=
      "You say, \"".toList ++ argument ++ "\"".toList }

/-- Model of `Server.quit`: sets `done` and the farewell output; `argument` is
ignored. -/
def quit (s : Server) (_argument : Str) : Server :=
  { s with done := true, output_buffer := "Goodbye Adventurer!".toList }

/-- Model of `Server.route`: split the input buffer on every space, pop the first
token as the command, join the rest with the empty separator, and look the
command up in `{'quit', 'move', 'say'}`.  `none` models the `KeyError`
raised (before any state mutation) when the command is unknown. -/
def route (s : Server) : Option Server :=
  let received := splitOnSpace s.input_buffer
  let command := received.headD []
  let arguments := received.tail.flatten
  if command = "quit".toList then some (quit s arguments)
  else if command = "move".toList then move s arguments
  else if command = "say".toList then some (say s arguments)
  else none

/-- Model of `Server.push_output`: the exact bytes
`b'OK! ' + self.output_buffer.encode() + b'\n'` sent to the client. -/
def message (s : Server) : Str :=
  "OK! ".toList ++ s.output_buffer ++ ['\n']

/-- How a modelled session run ends. -/
inductive ServeResult
  | ok (final : Server)      -- `done` observed true: sockets closed
  | crash (at_state : Server) -- an unhandled exception escaped `route`
  | blocked                  -- a read blocked with no further input
deriving DecidableEq, Repr

/-- The `while not self.done` loop of `Server.serve`:
`get_input; route; push_output`.  Fuel only bounds the recursion; any
fuel exceeding the number of chunks is enough, since every successful
read consumes at least one chunk. -/
def serveLoop : Nat → Server → List Str → List Str × ServeResult
  | 0, _, _ => ([], .blocked)
  | fuel + 1, s, chunks =>
    if s.done then ([], .ok s)
    else
      match get_input s chunks with
      | none => ([], .blocked)
      | some (s1, rest) =>
          match route s1 with
          | none => ([], .crash s1)
          | some s2 =>
              let r := serveLoop fuel s2 rest
              (message s2 :: r.1, r.2)

/-- Model of `Server.serve`: greet, flush the greeting, then the loop.  Returns
every message pushed to the client, in order, and how the run ended. -/
def serve (chunks : List Str) : List Str × ServeResult :=
  match greet initServer with
  | none => ([], .crash initServer)
  | some s =>
      let r := serveLoop (chunks.length + 1) s chunks
      (message s :: r.1, r.2)

/-- The adjacency map the specification describes (room 0: north→3,
east→2, west→1; room 1: east→0; room 2: west→0; room 3: south→0),
written from the spec's words for comparison with `move`. -/
def adjacency : List ((Nat × Str) × Nat) :=
  [ ((0, "north".toList), 3)
  , ((0, "east".toList), 2)
  , ((0, "west".toList), 1)
  , ((1, "east".toList), 0)
  , ((2, "west".toList), 0)
  , ((3, "south".toList), 0) ]

/-! ### Helper lemmas -/

lemma room_description_lt (n : Nat) (h : n < 4) :
    ∃ d, room_description n = some d := by
  interval_cases n <;> exact ⟨_, rfl⟩

/-- The room computed by `move`'s conditional chain stays below 4, and the
whole call succeeds, when the starting room is below 4. -/
lemma move_eq_some (s : Server) (h4 : s.room < 4) (arg : Str) :
    ∃ r d, move s arg = some { s with room := r, output_buffer := d } ∧
      r < 4 ∧ room_description r = some d := by
  obtain ⟨ib, ob, dn, rm⟩ := s
  change rm < 4 at h4
  interval_cases rm
  · rcases eq_or_ne arg (['n', 'o', 'r', 't', 'h'] : Str) with rfl | h1
    · exact ⟨3, _, rfl, by omega, rfl⟩
    rcases eq_or_ne arg (['e', 'a', 's', 't'] : Str) with rfl | h2
    · exact ⟨2, _, rfl, by omega, rfl⟩
    rcases eq_or_ne arg (['w', 'e', 's', 't'] : Str) with rfl | h3
    · exact ⟨1, _, rfl, by omega, rfl⟩
    refine ⟨0, _, ?_, by omega, rfl⟩
    simp [move, h1, h2, h3, room_description, descriptions]
  · rcases eq_or_ne arg (['e', 'a', 's', 't'] : Str) with rfl | h1
    · exact ⟨0, _, rfl, by omega, rfl⟩
    refine ⟨1, _, ?_, by omega, rfl⟩
    simp [move, h1, room_description, descriptions]
  · rcases eq_or_ne arg (['w', 'e', 's', 't'] : Str) with rfl | h1
    · exact ⟨0, _, rfl, by omega, rfl⟩
    refine ⟨2, _, ?_, by omega, rfl⟩
    simp [move, h1, room_description, descriptions]
  · rcases eq_or_ne arg (['s', 'o', 'u', 't', 'h'] : Str) with rfl | h1
    · exact ⟨0, _, rfl, by omega, rfl⟩
    refine ⟨3, _, ?_, by omega, rfl⟩
    simp [move, h1, room_description, descriptions]

lemma splitOnSpace_no_space : ∀ (l : Str), ∀ p ∈ splitOnSpace l, ' ' ∉ p
  | [] => by
    intro p hp
    rw [splitOnSpace] at hp
    rw [List.mem_singleton] at hp
    subst hp
    simp
  | c :: rest => by
    intro p hp
    by_cases hc : c = ' '
    · subst hc
      rw [splitOnSpace, if_pos rfl] at hp
      rcases List.mem_cons.mp hp with rfl | hp'
      · simp
      · exact splitOnSpace_no_space rest p hp'
    · rw [splitOnSpace, if_neg hc] at hp
      cases hps : splitOnSpace rest with
      | nil =>
        rw [hps] at hp
        simp only [List.mem_singleton] at hp
        subst hp
        simp [Ne.symm hc]
      | cons q qs =>
        rw [hps] at hp
        simp only [List.mem_cons] at hp
        rcases hp with rfl | hp
        · intro hmem
          rcases List.mem_cons.mp hmem with h | h
          · exact hc h.symm
          · exact splitOnSpace_no_space rest q (hps ▸ List.mem_cons_self q qs) h
        · exact splitOnSpace_no_space rest p (hps ▸ List.mem_cons_of_mem q hp)

lemma splitOnSpace_subset : ∀ (l : Str), ∀ p ∈ splitOnSpace l, ∀ ch ∈ p, ch ∈ l
  | [] => by
    intro p hp
    rw [splitOnSpace] at hp
    rw [List.mem_singleton] at hp
    subst hp
    simp
  | c :: rest => by
    intro p hp ch hch
    by_cases hc : c = ' '
    · subst hc
      rw [splitOnSpace, if_pos rfl] at hp
      rcases List.mem_cons.mp hp with rfl | hp'
      · simp at hch
      · exact List.mem_cons_of_mem _ (splitOnSpace_subset rest p hp' ch hch)
    · rw [splitOnSpace, if_neg hc] at hp
      cases hps : splitOnSpace rest with
      | nil =>
        rw [hps] at hp
        simp only [List.mem_singleton] at hp
        subst hp
        simp only [List.mem_singleton] at hch
        subst hch
        exact List.mem_cons_self _ _
      | cons q qs =>
        rw [hps] at hp
        simp only [List.mem_cons] at hp
        rcases hp with rfl | hp
        · rcases List.mem_cons.mp hch with rfl | h
          · exact List.mem_cons_self _ _
          · exact List.mem_cons_of_mem _
              (splitOnSpace_subset rest q (hps ▸ List.mem_cons_self q qs) ch h)
        · exact List.mem_cons_of_mem _
            (splitOnSpace_subset rest p (hps ▸ List.mem_cons_of_mem q hp) ch hch)

/-- Characters of the rejoined `route` argument all come from the input
line. -/
lemma arguments_subset (l : Str) (ch : Char)
    (h : ch ∈ (splitOnSpace l).tail.flatten) : ch ∈ l := by
  rw [List.mem_flatten] at h
  obtain ⟨p, hp, hchp⟩ := h
  exact splitOnSpace_subset l p (List.mem_of_mem_tail hp) ch hchp

/-- The rejoined `route` argument contains no space: `route` splits on
every space and rejoins with the empty separator. -/
lemma arguments_no_space (l : Str) : ' ' ∉ (splitOnSpace l).tail.flatten := by
  intro h
  rw [List.mem_flatten] at h
  obtain ⟨p, hp, hchp⟩ := h
  exact splitOnSpace_no_space l p (List.mem_of_mem_tail hp) hchp

/-- One non-stopping step of the read loop. -/
lemma get_input_loop_cons (received c : Str) (rest : List Str)
    (h : '\n' ∉ received) :
    get_input_loop received (c :: rest) = get_input_loop (received ++ c) rest := by
  rw [get_input_loop.eq_def, if_neg h]

/-- The read loop stops as soon as the accumulated bytes hold a newline. -/
lemma get_input_loop_stop (received : Str) (chunks : List Str)
    (h : '\n' ∈ received) :
    get_input_loop received chunks = some (received, chunks) := by
  rw [get_input_loop.eq_def, if_pos h]

lemma dropWhile_append_all (p : Char → Bool) (l1 l2 : Str)
    (h : ∀ c ∈ l1, p c = true) :
    (l1 ++ l2).dropWhile p = l2.dropWhile p := by
  induction l1 with
  | nil => rfl
  | cons c cs ih =>
    rw [List.cons_append, List.dropWhile_cons, h c (List.mem_cons_self c cs),
      if_pos rfl]
    exact ih (fun x hx => h x (List.mem_cons_of_mem c hx))

/-- Stripping ignores an all-whitespace leading run. -/
lemma pyStrip_append_left (pre t : Str) (h : ∀ c ∈ pre, isPySpace c = true) :
    pyStrip (pre ++ t) = pyStrip t := by
  unfold pyStrip
  rw [dropWhile_append_all _ pre t h]

/-- Stripping ignores an all-whitespace trailing run. -/
lemma pyStrip_append_right (t post : Str) (h : ∀ c ∈ post, isPySpace c = true) :
    pyStrip (t ++ post) = pyStrip t := by
  unfold pyStrip
  rw [List.dropWhile_append]
  by_cases hnil : (t.dropWhile isPySpace).isEmpty = true
  · rw [if_pos hnil, List.dropWhile_eq_nil_iff.mpr h,
      List.isEmpty_iff.mp hnil]
  · rw [if_neg hnil, List.reverse_append,
      dropWhile_append_all _ post.reverse _
        (fun c hc => h c (List.mem_reverse.mp hc))]

/-! ### Claims -/

/-- C1: for every (room, direction) pair listed in the adjacency map
(room 0: north→3, east→2, west→1; room 1: east→0; room 2: west→0;
room 3: south→0), `move` invoked with that direction in that room sets the
current room to exactly the listed destination (the sequential
conditionals cause no further cascaded transition) and sets the pending
output to that destination room's description, which is unique
(`descriptions.Nodup`). -/
theorem C1_move_valid_direction (s : Server) (r : Nat) (d : Str) (dest : Nat)
    (hmem : ((r, d), dest) ∈ adjacency) (hr : s.room = r) :
    ∃ desc, move s d = some { s with room := dest, output_buffer := desc } ∧
      room_description dest = some desc ∧ descriptions.Nodup := by
  obtain ⟨ib, ob, dn, rm⟩ := s
  change rm = r at hr
  subst hr
  simp only [adjacency, List.mem_cons, List.not_mem_nil, or_false,
    Prod.mk.injEq] at hmem
  rcases hmem with ⟨⟨rfl, rfl⟩, rfl⟩ | ⟨⟨rfl, rfl⟩, rfl⟩ | ⟨⟨rfl, rfl⟩, rfl⟩
    | ⟨⟨rfl, rfl⟩, rfl⟩ | ⟨⟨rfl, rfl⟩, rfl⟩ | ⟨⟨rfl, rfl⟩, rfl⟩ <;>
    exact ⟨_, rfl, rfl, by decide⟩

/-- Witness for C1 at room 0, direction "north". -/
theorem C1_move_valid_direction_witness :
    ∃ desc, move initServer "north".toList
        = some { initServer with room := 3, output_buffer := desc } ∧
      room_description 3 = some desc ∧ descriptions.Nodup :=
  C1_move_valid_direction initServer 0 "north".toList 3 (by decide) rfl

/-- C2: for every (room, direction) pair NOT listed in the adjacency map
(any argument other than the listed directions for the current room,
including empty or non-direction strings), `move` leaves the current room
unchanged and sets the pending output to the unchanged current room's
description — an invalid direction silently re-describes the current room
rather than signaling failure. -/
theorem C2_move_invalid_direction (s : Server) (h4 : s.room < 4) (d : Str)
    (hnot : (s.room, d) ∉ adjacency.map Prod.fst) :
    ∃ desc, move s d = some { s with output_buffer := desc } ∧
      room_description s.room = some desc := by
  obtain ⟨ib, ob, dn, rm⟩ := s
  change rm < 4 at h4
  change (rm, d) ∉ _ at hnot
  simp only [adjacency, List.map_cons, List.map_nil, List.mem_cons,
    List.not_mem_nil, or_false, Prod.mk.injEq, not_or, not_and] at hnot
  obtain ⟨n1, n2, n3, n4, n5, n6⟩ := hnot
  interval_cases rm
  · have h1 : d ≠ (['n', 'o', 'r', 't', 'h'] : Str) := fun h => n1 rfl h
    have h2 : d ≠ (['e', 'a', 's', 't'] : Str) := fun h => n2 rfl h
    have h3 : d ≠ (['w', 'e', 's', 't'] : Str) := fun h => n3 rfl h
    refine ⟨_, ?_, rfl⟩
    simp [move, h1, h2, h3, room_description, descriptions]
  · have h1 : d ≠ (['e', 'a', 's', 't'] : Str) := fun h => n4 rfl h
    refine ⟨_, ?_, rfl⟩
    simp [move, h1, room_description, descriptions]
  · have h1 : d ≠ (['w', 'e', 's', 't'] : Str) := fun h => n5 rfl h
    refine ⟨_, ?_, rfl⟩
    simp [move, h1, room_description, descriptions]
  · have h1 : d ≠ (['s', 'o', 'u', 't', 'h'] : Str) := fun h => n6 rfl h
    refine ⟨_, ?_, rfl⟩
    simp [move, h1, room_description, descriptions]

/-- Witness for C2 at room 0 with the unlisted direction "south". -/
theorem C2_move_invalid_direction_witness :
    ∃ desc, move initServer "south".toList
        = some { initServer with output_buffer := desc } ∧
      room_description initServer.room = some desc :=
  C2_move_invalid_direction initServer (by decide) "south".toList (by decide)

/-- C4: `quit` (with any argument, which is ignored) sets `done` to true
and the pending output to the fixed farewell; the flushed farewell line is
`OK! Goodbye Adventurer!\n`; and with `done` set, the serve loop finishes
immediately (`ServeResult.ok` marks the path on which `serve` closes the
client connection and the listening socket), whatever input remains. -/
theorem C4_quit_terminates (s : Server) (arg : Str) :
    quit s arg
        = { s with done := true, output_buffer := "Goodbye Adventurer!".toList } ∧
    message (quit s arg) = "OK! Goodbye Adventurer!\n".toList ∧
    ∀ fuel chunks, serveLoop (fuel + 1) (quit s arg) chunks
        = ([], .ok (quit s arg)) := by
  have hd : (quit s arg).done = true := rfl
  exact ⟨rfl, rfl, fun fuel chunks => by simp [serveLoop, hd]⟩

/-- C9 as written is false: in the code, `move east` from room 0 goes to
room 2, whose description is the rancor pit, not the jungle room (the
jungle room is room 1, reached from room 0 by `move west`).  The second
server message of the literal scenario is the rancor-pit line and differs
from the jungle-room line the claim expects. -/
theorem C9_round_trip_counterexample :
    ((serve ["move east\n".toList, "move west\n".toList,
        "say hello there\n".toList, "quit\n".toList]).1.getD 1 [])
      = "OK! You are in the rancor pit, watch out!\n".toList ∧
    ((serve ["move east\n".toList, "move west\n".toList,
        "say hello there\n".toList, "quit\n".toList]).1.getD 1 [])
      ≠ ("OK! You are in the jungle room with many strange animal busts " ++
          "in here, they almost seem to be real?\n").toList :=
  ⟨rfl, by decide⟩

/-- C9 amended: the literal round trip with the description the code
actually sends after `move east` (room 2, the rancor pit).  On connection
the greeting is sent; `move east` answers with the rancor-pit line;
`move west` returns to room 0 and re-sends the white-room line;
`say hello there` echoes `You say, "hellothere"`; `quit` answers with the
farewell, and the run ends on the closing path (`ServeResult.ok`). -/
theorem C9_round_trip :
    serve ["move east\n".toList, "move west\n".toList,
        "say hello there\n".toList, "quit\n".toList]
      = ( [ ("OK! Welcome to Land of the Lost! You are in the white room " ++
              "with black curtains, a sword glistens in the corner...\n").toList
          , "OK! You are in the rancor pit, watch out!\n".toList
          , ("OK! You are in the white room with black curtains, " ++
              "a sword glistens in the corner...\n").toList
          , "OK! You say, \"hellothere\"\n".toList
          , "OK! Goodbye Adventurer!\n".toList ]
        , .ok { input_buffer := "quit".toList,
                output_buffer := "Goodbye Adventurer!".toList,
                done := true, room := 0 } ) := by
  rfl

/-- C3: for every input line whose first space-delimited token is `say`,
`route` splits the line on every space, rejoins the remaining tokens with
the empty separator (the rejoined argument provably contains no space),
and the `say` handler sets the pending output to exactly
`You say, "<argument>"`, which `push_output` sends prefixed with `OK! `. -/
theorem C3_say_echo (s : Server)
    (h : (splitOnSpace s.input_buffer).headD [] = "say".toList) :
    route s = some { s with output_buffer :=
        "You say, \"".toList ++ (splitOnSpace s.input_buffer).tail.flatten
          ++ "\"".toList } ∧
    ' ' ∉ (splitOnSpace s.input_buffer).tail.flatten ∧
    message { s with output_buffer :=
        "You say, \"".toList ++ (splitOnSpace s.input_buffer).tail.flatten
          ++ "\"".toList }
      = "OK! You say, \"".toList
          ++ (splitOnSpace s.input_buffer).tail.flatten ++ "\"\n".toList := by
  refine ⟨?_, arguments_no_space _, ?_⟩
  · simp only [route]
    rw [h, if_neg (by decide), if_neg (by decide), if_pos rfl]
    rfl
  · simp [message, say, List.append_assoc]

/-- Witness for C3 on the line `say hello there` (internal space
removed). -/
theorem C3_say_echo_witness :
    route { initServer with input_buffer := "say hello there".toList }
        = some { initServer with
                 input_buffer := "say hello there".toList
                 output_buffer := "You say, \"hellothere\"".toList } ∧
    ' ' ∉ (splitOnSpace ("say hello there".toList)).tail.flatten ∧
    message { initServer with
              input_buffer := "say hello there".toList
              output_buffer := "You say, \"hellothere\"".toList }
      = "OK! You say, \"hellothere\"\n".toList :=
  C3_say_echo { initServer with input_buffer := "say hello there".toList } rfl

/-- C6: an input line whose first space-delimited token is none of
`move`, `say`, `quit` (the empty token from an empty line included) makes
`route` fail with the unhandled lookup failure (`none`, the `KeyError`),
and the crashed session state — carried by `ServeResult.crash` — has the
same `room` and `done` as before the dispatch: only `input_buffer` was
updated by the preceding read. -/
theorem C6_unknown_command (s : Server) (fuel : Nat)
    (chunks rest : List Str) (line : Str)
    (hdone : s.done = false)
    (hread : get_input_loop [] chunks = some (line, rest))
    (hcmd : (splitOnSpace (pyStrip line)).headD []
              ∉ [("move".toList : Str), "say".toList, "quit".toList]) :
    route { s with input_buffer := pyStrip line } = none ∧
    serveLoop (fuel + 1) s chunks
      = ([], .crash { s with input_buffer := pyStrip line }) := by
  obtain ⟨ib, ob, dn, rm⟩ := s
  change dn = false at hdone
  subst hdone
  simp only [List.mem_cons, List.not_mem_nil, or_false, not_or] at hcmd
  obtain ⟨hm, hs, hq⟩ := hcmd
  have hroute : route { Server.mk ib ob false rm with
      input_buffer := pyStrip line } = none := by
    simp only [route]
    rw [if_neg (fun h => hq h), if_neg (fun h => hm h), if_neg (fun h => hs h)]
  refine ⟨hroute, ?_⟩
  have hgi : get_input (Server.mk ib ob false rm) chunks
      = some ({ Server.mk ib ob false rm with
          input_buffer := pyStrip line }, rest) := by
    simp only [get_input, hread, Option.map_some']
  simp [serveLoop, hgi, hroute]

/-- Witness for C6 on an empty input line (empty command token). -/
theorem C6_unknown_command_witness :
    route { initServer with input_buffer := pyStrip "\n".toList } = none ∧
    serveLoop (0 + 1) initServer ["\n".toList]
      = ([], .crash { initServer with input_buffer := pyStrip "\n".toList }) :=
  C6_unknown_command initServer 0 ["\n".toList] [] "\n".toList rfl rfl
    (by decide)

/-- C10: `get_input` strips ALL leading and trailing whitespace, not only
the trailing newline: a command preceded by whitespace and terminated by
`\r\n` yields exactly the same session state (hence the same dispatch
behaviour) as the bare LF-terminated command — both set `input_buffer` to
`pyStrip cmd`. -/
theorem C10_strip_whitespace (s : Server) (cmd pre : Str)
    (hpre : ∀ c ∈ pre, isPySpace c = true) :
    get_input s [pre ++ cmd ++ ['\r', '\n']]
        = some ({ s with input_buffer := pyStrip cmd }, []) ∧
    get_input s [cmd ++ ['\n']]
        = some ({ s with input_buffer := pyStrip cmd }, []) := by
  have hcr : ∀ c ∈ (['\r', '\n'] : Str), isPySpace c = true := by decide
  have hlf : ∀ c ∈ (['\n'] : Str), isPySpace c = true := by decide
  constructor
  · have h1 : get_input_loop [] [pre ++ cmd ++ ['\r', '\n']]
        = some (pre ++ cmd ++ ['\r', '\n'], []) := by
      rw [get_input_loop_cons _ _ _ (by simp), List.nil_append,
        get_input_loop_stop _ _ (by simp)]
    simp only [get_input, h1, Option.map_some']
    rw [List.append_assoc, pyStrip_append_left _ _ hpre,
      pyStrip_append_right _ _ hcr]
  · have h2 : get_input_loop [] [cmd ++ ['\n']]
        = some (cmd ++ ['\n'], []) := by
      rw [get_input_loop_cons _ _ _ (by simp), List.nil_append,
        get_input_loop_stop _ _ (by simp)]
    simp only [get_input, h2, Option.map_some']
    rw [pyStrip_append_right _ _ hlf]

/-- Witness for C10: `  move east\r\n` and `move east\n` read to the same
state. -/
theorem C10_strip_whitespace_witness :
    get_input initServer [(' ' :: ' ' :: "move east".toList) ++ ['\r', '\n']]
        = some ({ initServer with
            input_buffer := pyStrip ("move east".toList) }, []) ∧
    get_input initServer ["move east".toList ++ ['\n']]
        = some ({ initServer with
            input_buffer := pyStrip ("move east".toList) }, []) :=
  C10_strip_whitespace initServer ("move east".toList) [' ', ' ']
    (by decide)

/-- Full characterisation of the read loop: it accumulates whole chunks,
stopping with the first chunk that brings a newline into the buffer; the
unconsumed stream is exactly the chunks after that one. -/
lemma get_input_loop_spec :
    ∀ (chunks : List Str) (acc received : Str) (rest : List Str),
      '\n' ∉ acc →
      get_input_loop acc chunks = some (received, rest) →
      ∃ k, 0 < k ∧ k ≤ chunks.length ∧
        received = acc ++ (chunks.take k).flatten ∧
        rest = chunks.drop k ∧ '\n' ∈ received ∧
        ∀ j < k, '\n' ∉ acc ++ (chunks.take j).flatten := by
  intro chunks
  induction chunks with
  | nil =>
    intro acc received rest hacc h
    rw [get_input_loop.eq_def, if_neg hacc] at h
    exact absurd h (by simp)
  | cons c cs ih =>
    intro acc received rest hacc h
    rw [get_input_loop_cons _ _ _ hacc] at h
    by_cases hnl : '\n' ∈ acc ++ c
    · rw [get_input_loop_stop _ _ hnl] at h
      rw [Option.some.injEq, Prod.mk.injEq] at h
      obtain ⟨rfl, rfl⟩ := h
      refine ⟨1, one_pos, by simp, by simp, by simp, hnl, ?_⟩
      intro j hj
      interval_cases j
      simpa using hacc
    · obtain ⟨k, hk0, hklen, hrec, hrest, hnlr, hpref⟩ :=
        ih (acc ++ c) received rest hnl h
      refine ⟨k + 1, by omega, by simp only [List.length_cons]; omega,
        ?_, ?_, hnlr, ?_⟩
      · rw [hrec]
        simp [List.take_succ_cons, List.flatten_cons, List.append_assoc]
      · rw [hrest, List.drop_succ_cons]
      · intro j hj
        cases j with
        | zero => simpa using hacc
        | succ j' =>
          have h' := hpref j' (by omega)
          simpa [List.take_succ_cons, List.flatten_cons,
            List.append_assoc] using h'

/-- C7: modelling the client socket as the sequence of byte chunks the
`recv` calls return, `get_input` accumulates whole chunks until the
accumulated buffer holds a newline byte, then sets `input_buffer` to the
trimmed accumulated buffer (trailing newline discarded by `strip`).  The
unconsumed stream is exactly the chunks after the one that brought the
newline: over-read bytes beyond the first newline stay inside the
consumed buffer (and hence the current `input_buffer`) and are NOT
preserved for the next command, so pipelined commands arriving in one
read are lost. -/
theorem C7_read_until_newline (s : Server) (chunks : List Str)
    (received : Str) (rest : List Str)
    (h : get_input_loop [] chunks = some (received, rest)) :
    get_input s chunks
        = some ({ s with input_buffer := pyStrip received }, rest) ∧
    ∃ k, 0 < k ∧ k ≤ chunks.length ∧
      received = (chunks.take k).flatten ∧
      rest = chunks.drop k ∧
      '\n' ∈ received ∧
      ∀ j < k, '\n' ∉ (chunks.take j).flatten := by
  refine ⟨by simp only [get_input, h, Option.map_some'], ?_⟩
  obtain ⟨k, hk0, hklen, hrec, hrest, hnl, hpref⟩ :=
    get_input_loop_spec chunks [] received rest (by simp) h
  exact ⟨k, hk0, hklen, by simpa using hrec, hrest, hnl,
    fun j hj => by simpa using hpref j hj⟩

/-- Witness for C7 on one chunk carrying two pipelined commands: both end
up in `input_buffer` ("move east\nquit"), and nothing is left for the
next read. -/
theorem C7_read_until_newline_witness :
    (get_input initServer ["move east\nquit\n".toList]
        = some ({ initServer with
            input_buffer := pyStrip ("move east\nquit\n".toList) }, []) ∧
    ∃ k, 0 < k ∧ k ≤ (["move east\nquit\n".toList] : List Str).length ∧
      "move east\nquit\n".toList
        = ((["move east\nquit\n".toList] : List Str).take k).flatten ∧
      ([] : List Str) = (["move east\nquit\n".toList] : List Str).drop k ∧
      '\n' ∈ "move east\nquit\n".toList ∧
      ∀ j < k,
        '\n' ∉ ((["move east\nquit\n".toList] : List Str).take j).flatten) :=
  C7_read_until_newline initServer ["move east\nquit\n".toList]
    ("move east\nquit\n".toList) [] rfl

/-- C8: the current room starts at 0 and every operation keeps it in
{0,1,2,3}: `move` (with any argument) succeeds from a valid room and
lands in a valid room, `say`, `quit`, `greet` and `get_input` leave the
room unchanged, and `route` preserves validity.  `room_description` is
defined (`some`) on every valid room, so the list indexing made by the
program never goes out of range; it is `none` (the unchecked
`IndexError`) only outside {0,1,2,3}, which never occurs. -/
theorem C8_room_always_valid (s : Server) (h4 : s.room < 4) (arg : Str) :
    initServer.room = 0 ∧ initServer.room < 4 ∧
    (∃ d, room_description s.room = some d) ∧
    (∃ s', move s arg = some s' ∧ s'.room < 4) ∧
    (say s arg).room = s.room ∧
    (quit s arg).room = s.room ∧
    (∀ s', greet s = some s' → s'.room = s.room) ∧
    (∀ chunks s1 rest, get_input s chunks = some (s1, rest) →
      s1.room = s.room) ∧
    (∀ s', route s = some s' → s'.room < 4) := by
  refine ⟨rfl, by decide, room_description_lt _ h4, ?_, rfl, rfl, ?_, ?_, ?_⟩
  · obtain ⟨r, d, hmv, hr4, -⟩ := move_eq_some s h4 arg
    exact ⟨_, hmv, hr4⟩
  · intro s' h
    rw [greet, Option.map_eq_some'] at h
    obtain ⟨d, -, rfl⟩ := h
    rfl
  · intro chunks s1 rest h
    rw [get_input, Option.map_eq_some'] at h
    obtain ⟨p, -, hp⟩ := h
    rw [Prod.mk.injEq] at hp
    obtain ⟨h1, -⟩ := hp
    rw [← h1]
  · intro s' h
    simp only [route] at h
    split_ifs at h
    · injection h with h
      subst h
      exact h4
    · obtain ⟨r, d, hmv, hr4, -⟩ :=
        move_eq_some s h4 ((splitOnSpace s.input_buffer).tail.flatten)
      rw [hmv] at h
      injection h with h
      subst h
      exact hr4
    · injection h with h
      subst h
      exact h4

/-- Witness for C8 at the initial state with argument "north". -/
theorem C8_room_always_valid_witness :
    initServer.room = 0 ∧ initServer.room < 4 ∧
    (∃ d, room_description initServer.room = some d) ∧
    (∃ s', move initServer "north".toList = some s' ∧ s'.room < 4) ∧
    (say initServer "north".toList).room = initServer.room ∧
    (quit initServer "north".toList).room = initServer.room ∧
    (∀ s', greet initServer = some s' → s'.room = initServer.room) ∧
    (∀ chunks s1 rest, get_input initServer chunks = some (s1, rest) →
      s1.room = initServer.room) ∧
    (∀ s', route initServer = some s' → s'.room < 4) :=
  C8_room_always_valid initServer (by decide) "north".toList

/-- Every room description is newline-free. -/
lemma desc_no_newline (n : Nat) (d : Str) (h : room_description n = some d) :
    '\n' ∉ d := by
  unfold room_description at h
  have hmem : d ∈ descriptions := List.getElem?_mem h
  have hall : ∀ x ∈ descriptions, '\n' ∉ x := by decide
  exact hall d hmem

/-- A successful `move` puts some room's description in the output
buffer. -/
lemma move_some_elim (s s' : Server) (arg : Str) (h : move s arg = some s') :
    room_description s'.room = some s'.output_buffer := by
  simp only [move, Option.map_eq_some'] at h
  obtain ⟨d, hd, rfl⟩ := h
  exact hd

/-- The `say` handler produces a newline-free output buffer from a newline-free
argument. -/
lemma say_no_newline (s : Server) (args : Str) (h : '\n' ∉ args) :
    '\n' ∉ (say s args).output_buffer := by
  change '\n' ∉ "You say, \"".toList ++ args ++ "\"".toList
  intro hmem
  rcases List.mem_append.mp hmem with h1 | h1
  · rcases List.mem_append.mp h1 with h2 | h2
    · exact absurd h2 (by decide)
    · exact h h2
  · exact absurd h1 (by decide)

/-- A successful dispatch on a newline-free input line leaves a
newline-free output buffer (the three handlers only ever store fixed
strings, room descriptions, or characters of the input line). -/
lemma route_no_newline (s s' : Server) (hin : '\n' ∉ s.input_buffer)
    (h : route s = some s') : '\n' ∉ s'.output_buffer := by
  simp only [route] at h
  split_ifs at h
  · injection h with h
    subst h
    exact (by decide : '\n' ∉ "Goodbye Adventurer!".toList)
  · exact desc_no_newline _ _ (move_some_elim s s' _ h)
  · injection h with h
    subst h
    exact say_no_newline s _ (fun hc => hin (arguments_subset _ _ hc))

/-- Stripping only removes characters. -/
lemma pyStrip_sublist (l : Str) : List.Sublist (pyStrip l) l := by
  unfold pyStrip
  have h1 := @List.dropWhile_sublist Char
    ((l.dropWhile isPySpace).reverse) isPySpace
  have h2 := h1.reverse
  rw [List.reverse_reverse] at h2
  exact h2.trans (@List.dropWhile_sublist Char l isPySpace)

/-- If a string's only possible newline is its final character, the
stripped string is newline-free. -/
lemma no_newline_pyStrip (l : Str) (h : '\n' ∉ l.dropLast) :
    '\n' ∉ pyStrip l := by
  rcases List.eq_nil_or_concat l with rfl | ⟨t, a, rfl⟩
  · simp [pyStrip]
  · rw [List.concat_eq_append] at h ⊢
    rw [List.dropLast_concat] at h
    by_cases ha : a = '\n'
    · subst ha
      rw [pyStrip_append_right t ['\n'] (by decide)]
      intro hmem
      exact h ((pyStrip_sublist t).subset hmem)
    · intro hmem
      have hmem2 : '\n' ∈ t ++ [a] := (pyStrip_sublist _).subset hmem
      rcases List.mem_append.mp hmem2 with h1 | h1
      · exact h h1
      · simp only [List.mem_singleton] at h1
        exact ha h1.symm

/-- If every chunk carries a newline only as its final byte, a successful
read produces a newline-free `input_buffer`, and the remaining chunks
still satisfy the same condition. -/
lemma get_input_good (s : Server) (chunks : List Str)
    (hchunks : ∀ c ∈ chunks, '\n' ∉ c.dropLast)
    (s1 : Server) (rest : List Str)
    (hg : get_input s chunks = some (s1, rest)) :
    '\n' ∉ s1.input_buffer ∧ ∀ c ∈ rest, '\n' ∉ c.dropLast := by
  rw [get_input, Option.map_eq_some'] at hg
  obtain ⟨p, hloop, hp⟩ := hg
  rw [Prod.mk.injEq] at hp
  obtain ⟨h1, h2⟩ := hp
  subst h1
  subst h2
  obtain ⟨k, hk0, hklen, hrec, hrest, hnl, hpref⟩ :=
    get_input_loop_spec chunks [] p.1 p.2 (by simp)
      (by rw [Prod.mk.eta]; exact hloop)
  obtain ⟨j, rfl⟩ : ∃ j, k = j + 1 := ⟨k - 1, by omega⟩
  have hj : j < chunks.length := by omega
  have htake : chunks.take (j + 1) = chunks.take j ++ [chunks[j]] := by
    rw [List.take_succ, List.getElem?_eq_getElem hj]
    rfl
  have hp1 : p.1 = (chunks.take j).flatten ++ chunks[j] := by
    rw [hrec, htake, List.flatten_append, List.nil_append]
    simp only [List.flatten_cons, List.flatten_nil, List.append_nil]
  have hP : '\n' ∉ (chunks.take j).flatten := by
    have := hpref j (by omega)
    simpa using this
  have hck : '\n' ∉ (chunks[j]).dropLast := hchunks _ (List.getElem_mem hj)
  constructor
  · change '\n' ∉ pyStrip p.1
    apply no_newline_pyStrip
    rcases eq_or_ne (chunks[j]) [] with hnil | hne
    · exfalso
      rw [hp1, hnil, List.append_nil] at hnl
      exact hP hnl
    · rw [hp1, List.dropLast_append_of_ne_nil _ hne]
      intro hmem
      rcases List.mem_append.mp hmem with h | h
      · exact hP h
      · exact hck h
  · intro c hc
    rw [hrest] at hc
    exact hchunks c (List.drop_subset _ _ hc)

/-- Every message the loop pushes is `OK! ` ++ buffer ++ `\n` with a
newline-free buffer, as long as each chunk carries a newline only as its
final byte. -/
lemma serveLoop_messages :
    ∀ (fuel : Nat) (s : Server) (chunks : List Str),
      (∀ c ∈ chunks, '\n' ∉ c.dropLast) →
      ∀ m ∈ (serveLoop fuel s chunks).1,
        ∃ buf, m = "OK! ".toList ++ buf ++ ['\n'] ∧ '\n' ∉ buf := by
  intro fuel
  induction fuel with
  | zero =>
    intro s chunks _ m hm
    simp [serveLoop] at hm
  | succ fuel ih =>
    intro s chunks hchunks m hm
    by_cases hd : s.done = true
    · rw [show serveLoop (fuel + 1) s chunks = ([], .ok s) from by
        simp [serveLoop, hd]] at hm
      simp at hm
    · rw [Bool.not_eq_true] at hd
      rcases hg : get_input s chunks with _ | p
      · rw [show serveLoop (fuel + 1) s chunks = ([], .blocked) from by
          simp [serveLoop, hd, hg]] at hm
        simp at hm
      · obtain ⟨s1, rest⟩ := p
        rcases hr : route s1 with _ | s2
        · rw [show serveLoop (fuel + 1) s chunks = ([], .crash s1) from by
            simp [serveLoop, hd, hg, hr]] at hm
          simp at hm
        · rw [show serveLoop (fuel + 1) s chunks
              = (message s2 :: (serveLoop fuel s2 rest).1,
                  (serveLoop fuel s2 rest).2) from by
            simp [serveLoop, hd, hg, hr]] at hm
          obtain ⟨hin1, hrest⟩ := get_input_good s chunks hchunks s1 rest hg
          rcases List.mem_cons.mp hm with rfl | hm'
          · exact ⟨s2.output_buffer, rfl, route_no_newline s1 s2 hin1 hr⟩
          · exact ih s2 rest hrest m hm'

/-- C5 as written is false: it claims the pending output buffer never
contains a newline at flush time for EVERY sequence of client inputs, but
a single recv chunk carrying an embedded newline (here `say a\nb\n`,
8 bytes, within the 16-byte recv size) survives `strip` and reaches the
`say` output buffer.  The flushed second message then carries a newline
before its terminator — its buffer part (everything before the final
byte) contains `\n` at flush time. -/
theorem C5_framing_counterexample :
    (serve ["say a\nb\n".toList]).1.getD 1 []
        = "OK! You say, \"a\nb\"\n".toList ∧
    '\n' ∈ ((serve ["say a\nb\n".toList]).1.getD 1 []).dropLast :=
  ⟨rfl, by decide⟩

/-- C5 amended: every message the server sends (the greeting and every
per-command response) is exactly `OK! ` ++ buffer ++ `\n`, so it begins
with the literal prefix `OK! ` and ends with a newline; and PROVIDED each
received chunk carries a newline only as its final byte (no embedded or
pipelined newlines), the flushed buffer never contains a newline, so each
message ends with exactly one newline. -/
theorem C5_framing (chunks : List Str)
    (hchunks : ∀ c ∈ chunks, '\n' ∉ c.dropLast) :
    ∀ m ∈ (serve chunks).1,
      ∃ buf, m = "OK! ".toList ++ buf ++ ['\n'] ∧ '\n' ∉ buf := by
  intro m hm
  have hserve : (serve chunks).1
      = message (Server.mk []
          ("Welcome to Land of the Lost! You are in the white room with " ++
            "black curtains, a sword glistens in the corner...").toList
          false 0)
        :: (serveLoop (chunks.length + 1)
            (Server.mk []
              ("Welcome to Land of the Lost! You are in the white room " ++
                "with black curtains, a sword glistens in the corner...").toList
              false 0) chunks).1 := rfl
  rw [hserve] at hm
  rcases List.mem_cons.mp hm with rfl | hm'
  · exact ⟨_, rfl, by decide⟩
  · exact serveLoop_messages (chunks.length + 1) _ chunks hchunks m hm'

/-- Witness for C5 on the single well-formed line `move east\n`: the
second server message is `OK! ` ++ buffer ++ `\n` with a newline-free
buffer. -/
theorem C5_framing_witness :
    ∃ buf, (serve ["move east\n".toList]).1.getD 1 []
        = "OK! ".toList ++ buf ++ ['\n'] ∧ '\n' ∉ buf :=
  C5_framing ["move east\n".toList] (by decide)
    ((serve ["move east\n".toList]).1.getD 1 []) (by decide)

end Adventure
